import Mathlib

/-
  Verification of the builtin/handler snapshot serializer
  (src/deps/v8/src/snapshot/builtin-serializer.cc).

  The serializer itself is embedded faithfully from the source file.
  External collaborators that the source file only calls into
  (the Sink byte buffer, the generic object encoder, the root table,
  the shared partial snapshot cache, the BSU index constants and the
  bytecode enumeration) are modelled from their interface description
  in the specification; each such definition carries a doc comment
  starting with the words Modelled from the spec.
-/

namespace BuiltinSer

/-- Encoding plan item of one heap object, as seen by the generic object
encoder: either a run of raw bytes of the body, or an embedded reference
to another heap object together with the pending skip byte count that the
encoder hands to the reference resolver. -/
inductive Item where
  | raw (bytes : List Nat)
  | ref (target : Nat) (skip : Nat)
deriving DecidableEq, Repr

/-- Modelled from the spec: the serializer bytecode tag for a root
reference token (serializer.h is external to this repository; the tag
values are opaque distinct bytes). -/
def kRootArray : Nat := 5

/-- Modelled from the spec: the serializer bytecode tag for a builtin
reference token. -/
def kBuiltin : Nat := 7

/-- Modelled from the spec: the serializer bytecode tag for a partial
snapshot cache reference token. -/
def kPartialSnapshotCache : Nat := 8

/-- Modelled from the spec: the serializer bytecode tag for a flushed
skip count. -/
def kSkip : Nat := 11

/-- Modelled from the spec: the designated no-op byte value used for
padding before the offset table. -/
def kNop : Nat := 13

/-- Modelled from the spec: the how-to-code framing constant used by the
builtin serializer (plain pointer). -/
def kPlain : Nat := 0

/-- Modelled from the spec: the where-to-point framing constant used by
the builtin serializer (start of object). -/
def kStartOfObject : Nat := 0

/-- Modelled from the spec: the fixed-width 32-bit little-endian byte
encoding of one offset table slot, as produced by the raw append of the
uint32 offset array. -/
def ToLE32 (n : Nat) : List Nat :=
  [n % 256, n / 256 % 256, n / 65536 % 256, n / 16777216 % 256]

/-- Modelled from the spec: the byte encoding the Sink uses for a small
integer argument of a tagged token (PutInt). -/
def PutIntBytes (n : Nat) : List Nat := ToLE32 n

/-- Modelled from the spec: the bytes appended when a pending skip count
is flushed; a zero skip appends nothing. -/
def SkipBytes (skip : Nat) : List Nat :=
  if skip = 0 then [] else kSkip :: PutIntBytes skip

/-- Modelled from the spec: FlushSkip appends the pending deferred skip
count to the Sink, or nothing when the count is zero. -/
def FlushSkip (skip : Nat) (sink : List Nat) : List Nat :=
  sink ++ SkipBytes skip

/-- Modelled from the spec: linear lookup of an object in the partial
snapshot cache, returning its index when present. -/
def CacheLookup (o : Nat) : List Nat → Option Nat
  | [] => none
  | x :: xs => if x = o then some 0 else (CacheLookup o xs).map (· + 1)

/-- Modelled from the spec: PartialSnapshotCacheIndex returns the stable
index of the object in the session-shared cache, appending the object on
first query; it returns the index together with the updated cache. -/
def PartialSnapshotCacheIndex (o : Nat) (cache : List Nat) : Nat × List Nat :=
  match CacheLookup o cache with
  | some i => (i, cache)
  | none => (cache.length, cache ++ [o])

/-- Heap and session environment consumed by the builtin serializer.
Heap objects are identified by natural numbers. The fields mirror the
external interfaces the source file calls: the BSU index constants, the
bytecode enumeration and its slot bijection, the builtin list, the root
index map with its serialized flags, the lazy-deserialize handler slots,
and the encoding plan the generic object encoder would produce for each
object. The padding length and the maximal over-read distance of the
decode-time integer reader parameterize Pad. -/
structure Env where
  kFirstBuiltinIndex : Nat
  kNumberOfBuiltins : Nat
  kFirstHandlerIndex : Nat
  kNumberOfHandlers : Nat
  kNumberOfCodeObjects : Nat
  bytecodes : List (Nat × Nat)
  BytecodeToIndex : Nat × Nat → Nat
  BytecodeHasHandler : Nat × Nat → Bool
  GetBytecodeHandler : Nat × Nat → Nat
  builtin : Nat → Nat
  builtinIndexOf : Nat → Option Nat
  rootIndexOf : Nat → Option Nat
  rootHasBeenSerialized : Nat → Bool
  ObjectIsBytecodeHandler : Nat → Bool
  IsCode : Nat → Bool
  body : Nat → List Item
  deserializeLazyHandler : Nat
  deserializeLazyHandlerWide : Nat
  deserializeLazyHandlerExtraWide : Nat
  padLen : Nat
  maxOverRead : Nat

/-- Mutable state of one serialization run: the Sink byte buffer, the
offset table array, the shared partial snapshot cache, plus two pieces of
instrumentation that record the order of events: writeLog lists every
offset-table store as a pair of slot and stored value, in store order,
and serializedByValue lists every object handed to the generic object
encoder for by-value encoding, in order. -/
structure SState where
  sink : List Nat
  offsets : List Nat
  writeLog : List (Nat × Nat)
  cache : List Nat
  serializedByValue : List Nat
deriving DecidableEq, Repr

/-- Fresh run state: empty Sink, offset table of the full slot count,
empty cache and empty instrumentation logs. -/
def FreshState (env : Env) : SState :=
  { sink := []
    offsets := List.replicate env.kNumberOfCodeObjects 0
    writeLog := []
    cache := []
    serializedByValue := [] }

/-- Modelled from the spec: PutRoot emits a compact root reference token,
a tag byte followed by the root index. -/
def PutRoot (how wtp rootIndex : Nat) (st : SState) : SState :=
  { st with sink := st.sink ++ (kRootArray + how + wtp) :: PutIntBytes rootIndex }

/-- Modelled from the spec: SerializeBuiltinReference emits a compact
builtin reference token, a tag byte followed by the builtin id, without
descending into the referenced builtin body. -/
def PutBuiltinReference (how wtp builtinIndex : Nat) (st : SState) : SState :=
  { st with sink := st.sink ++ (kBuiltin + how + wtp) :: PutIntBytes builtinIndex }

/-- SerializeObject of the builtin serializer, embedded from the source:
first match wins among the root reference path (with the debug check that
the root has already been serialized, modelled as a fatal failure), the
builtin reference path, and the cache fallback path which flushes the
pending skip and emits a cache reference token, growing the shared cache
on first query. -/
def SerializeObject (env : Env) (o how wtp skip : Nat) (st : SState) :
    Option SState :=
  match env.rootIndexOf o with
  | some rootIndex =>
      if env.rootHasBeenSerialized rootIndex then
        some (PutRoot how wtp rootIndex st)
      else none
  | none =>
      match env.builtinIndexOf o with
      | some builtinIndex => some (PutBuiltinReference how wtp builtinIndex st)
      | none =>
          let p := PartialSnapshotCacheIndex o st.cache
          some { st with
                  sink := FlushSkip skip st.sink ++
                    (kPartialSnapshotCache + how + wtp) :: PutIntBytes p.1
                  cache := p.2 }

/-- Modelled from the spec: the traversal of the generic object encoder
over the encoding plan of one object; raw bytes are appended to the Sink
and every embedded reference is routed through SerializeObject. -/
def SerializeItems (env : Env) : List Item → SState → Option SState
  | [], st => some st
  | Item.raw bs :: rest, st =>
      SerializeItems env rest { st with sink := st.sink ++ bs }
  | Item.ref t skip :: rest, st =>
      match SerializeObject env t kPlain kStartOfObject skip st with
      | none => none
      | some st1 => SerializeItems env rest st1

/-- Modelled from the spec: the generic ObjectSerializer invocation with
by-value, start-of-object framing; it records the object in the by-value
instrumentation log and walks its encoding plan. -/
def ObjectSerialize (env : Env) (o : Nat) (st : SState) : Option SState :=
  SerializeItems env (env.body o)
    { st with serializedByValue := st.serializedByValue ++ [o] }

/-- SerializeBuiltin, embedded from the source: the debug check that the
code object carries a nonnegative builtin index, then by-value encoding. -/
def SerializeBuiltin (env : Env) (code : Nat) (st : SState) : Option SState :=
  match env.builtinIndexOf code with
  | some _ => ObjectSerialize env code st
  | none => none

/-- SerializeHandler, embedded from the source: the debug check that the
code object is a bytecode handler, then by-value encoding. -/
def SerializeHandler (env : Env) (code : Nat) (st : SState) : Option SState :=
  if env.ObjectIsBytecodeHandler code then ObjectSerialize env code st
  else none

/-- IsBuiltinIndex of the BSU layout, modelled from the spec: the builtin
region of the offset table. -/
def Env.IsBuiltinIndex (env : Env) (i : Nat) : Bool :=
  decide (env.kFirstBuiltinIndex ≤ i) &&
    decide (i < env.kFirstBuiltinIndex + env.kNumberOfBuiltins)

/-- IsHandlerIndex of the BSU layout, modelled from the spec: the handler
region of the offset table. -/
def Env.IsHandlerIndex (env : Env) (i : Nat) : Bool :=
  decide (env.kFirstHandlerIndex ≤ i) &&
    decide (i < env.kFirstHandlerIndex + env.kNumberOfHandlers)

/-- SetBuiltinOffset, embedded from the source: debug checks that the id
is a valid builtin id and a builtin region index, then the store into the
offset table slot; the store is also recorded in the write log. -/
def SetBuiltinOffset (env : Env) (builtinId offset : Nat) (st : SState) :
    Option SState :=
  if decide (builtinId < env.kNumberOfBuiltins) && env.IsBuiltinIndex builtinId then
    some { st with
            offsets := st.offsets.set builtinId offset
            writeLog := st.writeLog ++ [(builtinId, offset)] }
  else none

/-- SetHandlerOffset, embedded from the source: the slot is computed by
the bytecode-to-index bijection, debug-checked to lie in the handler
region, and stored; the store is also recorded in the write log. -/
def SetHandlerOffset (env : Env) (bc : Nat × Nat) (offset : Nat) (st : SState) :
    Option SState :=
  let index := env.BytecodeToIndex bc
  if env.IsHandlerIndex index then
    some { st with
            offsets := st.offsets.set index offset
            writeLog := st.writeLog ++ [(index, offset)] }
  else none

/-- Builtin phase loop of SerializeBuiltinsAndHandlers, embedded from the
source: for each builtin id in increasing order, record the current Sink
position into the offset table, then serialize the builtin code object. -/
def RunBuiltins (env : Env) : Nat → Nat → SState → Option SState
  | _, 0, st => some st
  | start, count + 1, st =>
      match SetBuiltinOffset env start st.sink.length st with
      | none => none
      | some st1 =>
          match SerializeBuiltin env (env.builtin start) st1 with
          | none => none
          | some st2 => RunBuiltins env (start + 1) count st2

/-- Handler phase loop of SerializeBuiltinsAndHandlers, embedded from the
source: for each enumerated bytecode and operand scale pair, record the
current Sink position into the slot given by the bijection; when the pair
has no handler nothing is serialized, otherwise the handler code object
is serialized. -/
def RunHandlers (env : Env) : List (Nat × Nat) → SState → Option SState
  | [], st => some st
  | bc :: rest, st =>
      match SetHandlerOffset env bc st.sink.length st with
      | none => none
      | some st1 =>
          if env.BytecodeHasHandler bc then
            match SerializeHandler env (env.GetBytecodeHandler bc) st1 with
            | none => none
            | some st2 => RunHandlers env rest st2
          else RunHandlers env rest st1

/-- Modelled from the spec: Pad appends a run of the designated no-op
byte value of the configured padding length (the padding length is at
least the maximal over-read distance of the decode-time integer reader;
that inequality is an interface hypothesis of the layout theorems). -/
def Pad (env : Env) (st : SState) : SState :=
  { st with sink := st.sink ++ List.replicate env.padLen kNop }

/-- Raw fixed-width byte blob of the offset table, one 32-bit
little-endian word per slot, as appended by PutRaw. -/
def OffsetTableBytes (offsets : List Nat) : List Nat :=
  (offsets.map ToLE32).flatten

/-- SerializeBuiltinsAndHandlers, embedded from the source: the three
layout contract checks (static asserts, fatal if false), the builtin
phase, the handler phase, the debug checks that the three designated
lazy-deserialize handler slots hold code objects, the padding, and the
raw append of the offset table. -/
def SerializeBuiltinsAndHandlers (env : Env) (st0 : SState) : Option SState :=
  if env.kFirstBuiltinIndex = 0 then
    match RunBuiltins env 0 env.kNumberOfBuiltins st0 with
    | none => none
    | some st1 =>
        if env.kNumberOfBuiltins = env.kFirstHandlerIndex then
          match RunHandlers env env.bytecodes st1 with
          | none => none
          | some st2 =>
              if env.kFirstHandlerIndex + env.kNumberOfHandlers =
                  env.kNumberOfCodeObjects then
                if env.IsCode env.deserializeLazyHandler &&
                    env.IsCode env.deserializeLazyHandlerWide &&
                    env.IsCode env.deserializeLazyHandlerExtraWide then
                  let st3 := Pad env st2
                  some { st3 with sink := st3.sink ++ OffsetTableBytes st3.offsets }
                else none
              else none
        else none
  else none

/-- Layout contract checked once per run by the static asserts of
SerializeBuiltinsAndHandlers. -/
def LayoutContract (env : Env) : Prop :=
  env.kFirstBuiltinIndex = 0 ∧
    env.kNumberOfBuiltins = env.kFirstHandlerIndex ∧
    env.kFirstHandlerIndex + env.kNumberOfHandlers = env.kNumberOfCodeObjects

/-- Fresh-state predicate used by the determinism claim: an empty Sink,
a zero-filled offset table of the full slot count, an empty shared cache
and empty instrumentation logs. -/
def IsFreshState (env : Env) (st : SState) : Prop :=
  st.sink = [] ∧
    st.offsets = List.replicate env.kNumberOfCodeObjects 0 ∧
    st.writeLog = [] ∧ st.cache = [] ∧ st.serializedByValue = []

/-- Minimal environment exhibiting the gap in the lazy-handler claim: no
builtins, no handler slots, an empty enumeration, and a lazy-deserialize
handler that is a code object with root index zero while no root at all
is marked serialized. -/
def envC7 : Env :=
  { kFirstBuiltinIndex := 0
    kNumberOfBuiltins := 0
    kFirstHandlerIndex := 0
    kNumberOfHandlers := 0
    kNumberOfCodeObjects := 0
    bytecodes := []
    BytecodeToIndex := fun _ => 0
    BytecodeHasHandler := fun _ => false
    GetBytecodeHandler := fun _ => 0
    builtin := fun _ => 0
    builtinIndexOf := fun _ => none
    rootIndexOf := fun o => if o = 30 then some 0 else none
    rootHasBeenSerialized := fun _ => false
    ObjectIsBytecodeHandler := fun _ => false
    IsCode := fun _ => true
    body := fun _ => []
    deserializeLazyHandler := 30
    deserializeLazyHandlerWide := 31
    deserializeLazyHandlerExtraWide := 32
    padLen := 2
    maxOverRead := 2 }

/-- Concrete example environment: one builtin (code object 10, one raw
byte) and one enumerated pair with a handler (code object 20, two raw
bytes), with the bijection mapping the single pair to slot one. -/
def envEx : Env :=
  { kFirstBuiltinIndex := 0
    kNumberOfBuiltins := 1
    kFirstHandlerIndex := 1
    kNumberOfHandlers := 1
    kNumberOfCodeObjects := 2
    bytecodes := [(0, 0)]
    BytecodeToIndex := fun _ => 1
    BytecodeHasHandler := fun _ => true
    GetBytecodeHandler := fun _ => 20
    builtin := fun _ => 10
    builtinIndexOf := fun o => if o = 10 then some 0 else none
    rootIndexOf := fun _ => none
    rootHasBeenSerialized := fun _ => false
    ObjectIsBytecodeHandler := fun o => o == 20
    IsCode := fun _ => true
    body := fun o =>
      if o = 10 then [Item.raw [1]]
      else if o = 20 then [Item.raw [2, 2]] else []
    deserializeLazyHandler := 30
    deserializeLazyHandlerWide := 31
    deserializeLazyHandlerExtraWide := 32
    padLen := 3
    maxOverRead := 3 }

/-- Concrete example environment for the reference resolver: object 40
is a root (index 2, marked serialized), objects 10 and 21 are builtins
(ids 0 and 7) whose bodies reference each other, and object 50 is plain
auxiliary data. -/
def envRef : Env :=
  { kFirstBuiltinIndex := 0
    kNumberOfBuiltins := 8
    kFirstHandlerIndex := 8
    kNumberOfHandlers := 0
    kNumberOfCodeObjects := 8
    bytecodes := []
    BytecodeToIndex := fun _ => 0
    BytecodeHasHandler := fun _ => false
    GetBytecodeHandler := fun _ => 0
    builtin := fun _ => 10
    builtinIndexOf := fun o =>
      if o = 10 then some 0 else if o = 21 then some 7 else none
    rootIndexOf := fun o => if o = 40 then some 2 else none
    rootHasBeenSerialized := fun r => r == 2
    ObjectIsBytecodeHandler := fun _ => false
    IsCode := fun _ => true
    body := fun o =>
      if o = 10 then [Item.ref 21 0]
      else if o = 21 then [Item.ref 10 5] else []
    deserializeLazyHandler := 30
    deserializeLazyHandlerWide := 31
    deserializeLazyHandlerExtraWide := 32
    padLen := 3
    maxOverRead := 3 }

/-- Result state of the example run: the builtin byte, the two handler
bytes, three no-op padding bytes, and the two 32-bit offset words zero
and one. -/
def stEx : SState :=
  { sink := [1, 2, 2, 13, 13, 13, 0, 0, 0, 0, 1, 0, 0, 0]
    offsets := [0, 1]
    writeLog := [(0, 0), (1, 1)]
    cache := []
    serializedByValue := [10, 20] }

/-- Length of the flattened prefix grows by the length of the next chunk. -/
lemma take_flatten_succ (l : List (List Nat)) (k : Nat) (h : k < l.length) :
    ((l.take (k + 1)).flatten).length =
      ((l.take k).flatten).length + (l.getD k []).length := by
  induction l generalizing k with
  | nil => simp at h
  | cons a t ih =>
      cases k with
      | zero => simp
      | succ m =>
          simp only [List.take_succ_cons, List.flatten_cons, List.length_append]
          rw [ih m (by simpa using h)]
          simp [List.getD_cons_succ]
          omega

/-- A getD read agrees with a successful get? read. -/
lemma getD_of_get? {l : List Nat} {n a : Nat} (d : Nat) (h : l.get? n = some a) :
    l.getD n d = a := by
  simp [List.getD_eq_getElem?_getD, ← List.get?_eq_getElem?, h]

/-- Reading inside a replicate list yields the replicated element. -/
lemma get?_replicate_lt {n j : Nat} (a : Nat) (h : j < n) :
    (List.replicate n a).get? j = some a := by
  simp [List.get?_eq_getElem?, List.getElem?_replicate, h]

/-- CacheLookup finds a present object. -/
lemma CacheLookup_of_mem {o : Nat} {c : List Nat} (h : o ∈ c) :
    ∃ i, CacheLookup o c = some i := by
  induction c with
  | nil => simp at h
  | cons x t ih =>
      by_cases hx : x = o
      · exact ⟨0, by simp [CacheLookup, hx]⟩
      · have ht : o ∈ t := by
          rcases List.mem_cons.mp h with h1 | h1
          · exact absurd h1.symm hx
          · exact h1
        rcases ih ht with ⟨i, hi⟩
        exact ⟨i + 1, by simp [CacheLookup, hx, hi]⟩

/-- CacheLookup misses an absent object. -/
lemma CacheLookup_of_not_mem {o : Nat} {c : List Nat} (h : o ∉ c) :
    CacheLookup o c = none := by
  induction c with
  | nil => rfl
  | cons x t ih =>
      have hx : x ≠ o := fun he => h (he ▸ List.mem_cons_self x t)
      have ht : o ∉ t := fun hm => h (List.mem_cons_of_mem x hm)
      simp [CacheLookup, hx, ih ht]

/-- The cache query leaves a cache containing the object unchanged. -/
lemma PartialSnapshotCacheIndex_mem {o : Nat} {c : List Nat} (h : o ∈ c) :
    (PartialSnapshotCacheIndex o c).2 = c := by
  rcases CacheLookup_of_mem h with ⟨i, hi⟩
  simp [PartialSnapshotCacheIndex, hi]

/-- The cache query appends an absent object at the end. -/
lemma PartialSnapshotCacheIndex_not_mem {o : Nat} {c : List Nat} (h : o ∉ c) :
    (PartialSnapshotCacheIndex o c).2 = c ++ [o] := by
  simp [PartialSnapshotCacheIndex, CacheLookup_of_not_mem h]

/-- The cache query only ever extends the cache. -/
lemma PartialSnapshotCacheIndex_extend (o : Nat) (c : List Nat) :
    ∃ d, (PartialSnapshotCacheIndex o c).2 = c ++ d := by
  by_cases h : o ∈ c
  · exact ⟨[], by simp [PartialSnapshotCacheIndex_mem h]⟩
  · exact ⟨[o], PartialSnapshotCacheIndex_not_mem h⟩

/-- Frame of the reference resolver: it only appends to the Sink, only
extends the cache, and leaves the offset table and both instrumentation
logs untouched. -/
lemma SerializeObject_frame {env : Env} {o how wtp skip : Nat} {st st' : SState}
    (h : SerializeObject env o how wtp skip st = some st') :
    (∃ d, st'.sink = st.sink ++ d) ∧ st'.offsets = st.offsets ∧
      st'.writeLog = st.writeLog ∧ (∃ c, st'.cache = st.cache ++ c) ∧
      st'.serializedByValue = st.serializedByValue := by
  rcases hro : env.rootIndexOf o with _ | ri
  · rcases hbo : env.builtinIndexOf o with _ | bi
    · simp only [SerializeObject, hro, hbo] at h
      rcases PartialSnapshotCacheIndex_extend o st.cache with ⟨d, hd⟩
      cases h
      refine ⟨⟨SkipBytes skip ++ (kPartialSnapshotCache + how + wtp) ::
        PutIntBytes (PartialSnapshotCacheIndex o st.cache).1, ?_⟩,
        rfl, rfl, ⟨d, hd⟩, rfl⟩
      simp [FlushSkip]
    · simp only [SerializeObject, hro, hbo] at h
      cases h
      exact ⟨⟨_, rfl⟩, rfl, rfl, ⟨[], by simp [PutBuiltinReference]⟩, rfl⟩
  · simp only [SerializeObject, hro] at h
    split at h
    · cases h
      exact ⟨⟨_, rfl⟩, rfl, rfl, ⟨[], by simp [PutRoot]⟩, rfl⟩
    · exact absurd h (by simp)

/-- Frame of the encoding-plan traversal: it only appends to the Sink,
only extends the cache, and leaves the offset table and both
instrumentation logs untouched. -/
lemma SerializeItems_frame {env : Env} :
    ∀ {items : List Item} {st st' : SState},
      SerializeItems env items st = some st' →
      (∃ d, st'.sink = st.sink ++ d) ∧ st'.offsets = st.offsets ∧
        st'.writeLog = st.writeLog ∧ (∃ c, st'.cache = st.cache ++ c) ∧
        st'.serializedByValue = st.serializedByValue := by
  intro items
  induction items with
  | nil =>
      intro st st' h
      cases h
      exact ⟨⟨[], by simp⟩, rfl, rfl, ⟨[], by simp⟩, rfl⟩
  | cons it rest ih =>
      intro st st' h
      cases it with
      | raw bs =>
          rcases ih h with ⟨⟨d, hd⟩, h2, h3, ⟨c, hc⟩, h5⟩
          exact ⟨⟨bs ++ d, by simpa using hd⟩, h2, h3, ⟨c, hc⟩, h5⟩
      | ref t skip =>
          simp only [SerializeItems] at h
          rcases hso : SerializeObject env t kPlain kStartOfObject skip st with
            _ | st1
          · rw [hso] at h; cases h
          · rw [hso] at h
            rcases SerializeObject_frame hso with ⟨⟨d1, hd1⟩, g2, g3, ⟨c1, hc1⟩, g5⟩
            rcases ih h with ⟨⟨d2, hd2⟩, h2, h3, ⟨c2, hc2⟩, h5⟩
            refine ⟨⟨d1 ++ d2, ?_⟩, ?_, ?_, ⟨c1 ++ c2, ?_⟩, ?_⟩
            · rw [hd2, hd1, List.append_assoc]
            · rw [h2, g2]
            · rw [h3, g3]
            · rw [hc2, hc1, List.append_assoc]
            · rw [h5, g5]

/-- Frame of the generic object encoder invocation: it only appends to
the Sink, only extends the cache, leaves the offset table and write log
untouched, and records exactly the encoded object in the by-value log. -/
lemma ObjectSerialize_frame {env : Env} {o : Nat} {st st' : SState}
    (h : ObjectSerialize env o st = some st') :
    (∃ d, st'.sink = st.sink ++ d) ∧ st'.offsets = st.offsets ∧
      st'.writeLog = st.writeLog ∧ (∃ c, st'.cache = st.cache ++ c) ∧
      st'.serializedByValue = st.serializedByValue ++ [o] := by
  rcases SerializeItems_frame h with ⟨⟨d, hd⟩, h2, h3, ⟨c, hc⟩, h5⟩
  exact ⟨⟨d, hd⟩, h2, h3, ⟨c, hc⟩, h5⟩

/-- Frame of SerializeBuiltin, inherited from the object encoder. -/
lemma SerializeBuiltin_frame {env : Env} {code : Nat} {st st' : SState}
    (h : SerializeBuiltin env code st = some st') :
    (∃ d, st'.sink = st.sink ++ d) ∧ st'.offsets = st.offsets ∧
      st'.writeLog = st.writeLog ∧ (∃ c, st'.cache = st.cache ++ c) ∧
      st'.serializedByValue = st.serializedByValue ++ [code] := by
  rcases hbo : env.builtinIndexOf code with _ | bi
  · simp [SerializeBuiltin, hbo] at h
  · simp only [SerializeBuiltin, hbo] at h
    exact ObjectSerialize_frame h

/-- Frame of SerializeHandler, inherited from the object encoder. -/
lemma SerializeHandler_frame {env : Env} {code : Nat} {st st' : SState}
    (h : SerializeHandler env code st = some st') :
    (∃ d, st'.sink = st.sink ++ d) ∧ st'.offsets = st.offsets ∧
      st'.writeLog = st.writeLog ∧ (∃ c, st'.cache = st.cache ++ c) ∧
      st'.serializedByValue = st.serializedByValue ++ [code] := by
  by_cases hh : env.ObjectIsBytecodeHandler code
  · simp only [SerializeHandler, hh, if_true] at h
    exact ObjectSerialize_frame h
  · simp [SerializeHandler, hh] at h

/-- Characterization of the builtin phase loop: it appends one encoding
chunk per builtin id, logs exactly one offset-table store per id, in
increasing id order, each store holding the Sink position immediately
before the bytes of that id, writes exactly the slots of the processed id
range, and only extends the shared cache. -/
lemma RunBuiltins_spec {env : Env} :
    ∀ {count start : Nat} {st st' : SState},
      RunBuiltins env start count st = some st' →
      start + count ≤ st.offsets.length →
      ∃ chunks : List (List Nat),
        chunks.length = count ∧
        st'.sink = st.sink ++ chunks.flatten ∧
        st'.writeLog = st.writeLog ++ (List.range count).map
          (fun k => (start + k,
            st.sink.length + ((chunks.take k).flatten).length)) ∧
        st'.offsets.length = st.offsets.length ∧
        (∀ k, k < count → st'.offsets.get? (start + k) =
          some (st.sink.length + ((chunks.take k).flatten).length)) ∧
        (∀ j, j < start ∨ start + count ≤ j →
          st'.offsets.get? j = st.offsets.get? j) ∧
        (∃ c, st'.cache = st.cache ++ c) := by
  intro count
  induction count with
  | zero =>
      intro start st st' h _
      simp only [RunBuiltins] at h
      cases h
      exact ⟨[], rfl, by simp, by simp, rfl, by omega, fun j _ => rfl,
        ⟨[], by simp⟩⟩
  | succ c ih =>
      intro start st st' h hlen
      simp only [RunBuiltins] at h
      rcases hsb : SetBuiltinOffset env start st.sink.length st with _ | st1
      · rw [hsb] at h; simp at h
      · rw [hsb] at h
        dsimp only at h
        rcases hser : SerializeBuiltin env (env.builtin start) st1 with _ | st2
        · rw [hser] at h; simp at h
        · rw [hser] at h
          dsimp only at h
          have hst1 : st1 = { st with
              offsets := st.offsets.set start st.sink.length
              writeLog := st.writeLog ++ [(start, st.sink.length)] } := by
            simp only [SetBuiltinOffset] at hsb
            split at hsb
            · exact (Option.some.injEq _ _).mp hsb |>.symm
            · simp at hsb
          rcases SerializeBuiltin_frame hser with
            ⟨⟨d, hd⟩, ho2, hw2, ⟨cc, hcc⟩, _⟩
          have hlen2 : start + 1 + c ≤ st2.offsets.length := by
            rw [ho2, hst1]
            simp only [List.length_set]
            omega
          rcases ih h hlen2 with
            ⟨chunks, hcl, hsink, hlog, holen, hget, hpres, ⟨c2, hc2⟩⟩
          have hsink1 : st1.sink = st.sink := by rw [hst1]
          have hslen2 : st2.sink.length = st.sink.length + d.length := by
            rw [hd, hsink1]; simp
          refine ⟨d :: chunks, by simp [hcl], ?_, ?_, ?_, ?_, ?_, ?_⟩
          · rw [hsink, hd, hsink1]
            simp [List.append_assoc]
          · rw [hlog, hw2, hst1]
            simp only [List.range_succ_eq_map, List.map_cons, List.map_map,
              List.append_assoc, List.cons_append, List.nil_append]
            congr 1
            simp only [List.cons.injEq]
            refine ⟨by simp, ?_⟩
            apply List.map_congr_left
            intro a _
            simp only [Function.comp_apply, Nat.succ_eq_add_one,
              List.take_succ_cons, List.flatten_cons, List.length_append,
              Prod.mk.injEq]
            rw [hslen2]
            exact ⟨by omega, by omega⟩
          · rw [holen, ho2, hst1]; simp
          · intro k hk
            cases k with
            | zero =>
                have hg : st'.offsets.get? start = st2.offsets.get? start := by
                  apply hpres
                  omega
                rw [Nat.add_zero, hg, ho2, hst1]
                simp only
                rw [List.get?_set_eq_of_lt _ (by omega)]
                simp
            | succ m =>
                have hm : m < c := by omega
                have := hget m hm
                rw [show start + (m + 1) = start + 1 + m by omega, this, hslen2]
                simp only [Option.some.injEq, List.take_succ_cons,
                  List.flatten_cons, List.length_append]
                omega
          · intro j hj
            have hg : st'.offsets.get? j = st2.offsets.get? j := by
              apply hpres
              omega
            rw [hg, ho2, hst1]
            simp only
            rw [List.get?_set_ne _ _ (by omega)]
          · exact ⟨cc ++ c2, by rw [hc2, hcc, hst1, List.append_assoc]⟩

/-- Characterization of the handler phase loop, under the assumption that
the externally defined bijection maps the enumeration order onto
consecutive slots starting at the given base slot: it appends one
encoding chunk per enumerated pair (the empty chunk for pairs without a
handler), logs exactly one offset-table store per pair in enumeration
order, each store holding the Sink position immediately before the bytes
of that pair, writes exactly the covered slot range, and only extends the
shared cache. -/
lemma RunHandlers_spec {env : Env} :
    ∀ {bcs : List (Nat × Nat)} {base : Nat} {st st' : SState},
      RunHandlers env bcs st = some st' →
      (∀ k, k < bcs.length →
        env.BytecodeToIndex (bcs.getD k (0, 0)) = base + k) →
      base + bcs.length ≤ st.offsets.length →
      ∃ chunks : List (List Nat),
        chunks.length = bcs.length ∧
        st'.sink = st.sink ++ chunks.flatten ∧
        st'.writeLog = st.writeLog ++ (List.range bcs.length).map
          (fun k => (base + k,
            st.sink.length + ((chunks.take k).flatten).length)) ∧
        st'.offsets.length = st.offsets.length ∧
        (∀ k, k < bcs.length → st'.offsets.get? (base + k) =
          some (st.sink.length + ((chunks.take k).flatten).length)) ∧
        (∀ j, j < base ∨ base + bcs.length ≤ j →
          st'.offsets.get? j = st.offsets.get? j) ∧
        (∃ c, st'.cache = st.cache ++ c) ∧
        (∀ k, k < bcs.length →
          env.BytecodeHasHandler (bcs.getD k (0, 0)) = false →
          chunks.getD k [] = []) := by
  intro bcs
  induction bcs with
  | nil =>
      intro base st st' h _ _
      simp only [RunHandlers] at h
      cases h
      exact ⟨[], rfl, by simp, by simp, rfl,
        fun k hk => absurd hk (by simp), fun j _ => rfl,
        ⟨[], by simp⟩, fun k hk _ => absurd hk (by simp)⟩
  | cons bc rest ih =>
      intro base st st' h hAlign hlen
      have halign0 : env.BytecodeToIndex bc = base := by
        have := hAlign 0 (by simp)
        simpa using this
      have halign' : ∀ k, k < rest.length →
          env.BytecodeToIndex (rest.getD k (0, 0)) = base + 1 + k := by
        intro k hk
        have := hAlign (k + 1) (by simp; omega)
        simp only [List.getD_cons_succ] at this
        rw [this]; omega
      simp only [RunHandlers] at h
      rcases hsh : SetHandlerOffset env bc st.sink.length st with _ | st1
      · rw [hsh] at h; simp at h
      · rw [hsh] at h
        dsimp only at h
        have hst1 : st1 = { st with
            offsets := st.offsets.set base st.sink.length
            writeLog := st.writeLog ++ [(base, st.sink.length)] } := by
          simp only [SetHandlerOffset, halign0] at hsh
          split at hsh
          · exact ((Option.some.injEq _ _).mp hsh).symm
          · simp at hsh
        by_cases hhh : env.BytecodeHasHandler bc
        · rw [hhh] at h
          simp only [if_true] at h
          rcases hser : SerializeHandler env (env.GetBytecodeHandler bc) st1 with
            _ | st2
          · rw [hser] at h; simp at h
          · rw [hser] at h
            dsimp only at h
            rcases SerializeHandler_frame hser with
              ⟨⟨d, hd⟩, ho2, hw2, ⟨cc, hcc⟩, _⟩
            have hlen2 : base + 1 + rest.length ≤ st2.offsets.length := by
              rw [ho2, hst1]
              simp only [List.length_set]
              simp only [List.length_cons] at hlen
              omega
            rcases ih h halign' hlen2 with
              ⟨chunks, hcl, hsink, hlog, holen, hget, hpres, ⟨c2, hc2⟩, hempty⟩
            have hsink1 : st1.sink = st.sink := by rw [hst1]
            have hslen2 : st2.sink.length = st.sink.length + d.length := by
              rw [hd, hsink1]; simp
            refine ⟨d :: chunks, by simp [hcl], ?_, ?_, ?_, ?_, ?_, ?_, ?_⟩
            · rw [hsink, hd, hsink1]
              simp [List.append_assoc]
            · rw [hlog, hw2, hst1]
              simp only [List.length_cons, List.range_succ_eq_map,
                List.map_cons, List.map_map, List.append_assoc,
                List.cons_append, List.nil_append]
              congr 1
              simp only [List.cons.injEq]
              refine ⟨by simp, ?_⟩
              apply List.map_congr_left
              intro a _
              simp only [Function.comp_apply, Nat.succ_eq_add_one,
                List.take_succ_cons, List.flatten_cons, List.length_append,
                Prod.mk.injEq]
              rw [hslen2]
              exact ⟨by omega, by omega⟩
            · rw [holen, ho2, hst1]; simp
            · intro k hk
              cases k with
              | zero =>
                  have hg : st'.offsets.get? base = st2.offsets.get? base := by
                    apply hpres
                    omega
                  rw [Nat.add_zero, hg, ho2, hst1]
                  simp only
                  rw [List.get?_set_eq_of_lt _ (by simp at hlen; omega)]
                  simp
              | succ m =>
                  have hm : m < rest.length := by simp at hk; omega
                  have := hget m hm
                  rw [show base + (m + 1) = base + 1 + m by omega, this, hslen2]
                  simp only [Option.some.injEq, List.take_succ_cons,
                    List.flatten_cons, List.length_append]
                  omega
            · intro j hj
              simp only [List.length_cons] at hj
              have hg : st'.offsets.get? j = st2.offsets.get? j := by
                apply hpres
                omega
              rw [hg, ho2, hst1]
              simp only
              rw [List.get?_set_ne _ _ (by omega)]
            · exact ⟨cc ++ c2, by rw [hc2, hcc, hst1, List.append_assoc]⟩
            · intro k hk hno
              cases k with
              | zero =>
                  simp only [List.getD_cons_zero] at hno
                  rw [hhh] at hno
                  cases hno
              | succ m =>
                  have hm : m < rest.length := by simp at hk; omega
                  simp only [List.getD_cons_succ] at hno ⊢
                  exact hempty m hm hno
        · simp only [hhh] at h
          simp only [Bool.false_eq_true, if_false] at h
          have hlen2 : base + 1 + rest.length ≤ st1.offsets.length := by
            rw [hst1]
            simp only [List.length_set]
            simp only [List.length_cons] at hlen
            omega
          rcases ih h halign' hlen2 with
            ⟨chunks, hcl, hsink, hlog, holen, hget, hpres, ⟨c2, hc2⟩, hempty⟩
          have hsink1 : st1.sink = st.sink := by rw [hst1]
          refine ⟨[] :: chunks, by simp [hcl], ?_, ?_, ?_, ?_, ?_, ?_, ?_⟩
          · rw [hsink, hsink1]
            simp
          · rw [hlog, hst1]
            simp only [List.length_cons, List.range_succ_eq_map,
              List.map_cons, List.map_map, List.append_assoc,
              List.cons_append, List.nil_append]
            congr 1
            simp only [List.cons.injEq]
            refine ⟨by simp, ?_⟩
            apply List.map_congr_left
            intro a _
            simp only [Function.comp_apply, Nat.succ_eq_add_one,
              List.take_succ_cons, List.flatten_cons, List.length_append,
              Prod.mk.injEq, List.nil_append, List.length_nil]
            exact ⟨by omega, trivial⟩
          · rw [holen, hst1]; simp
          · intro k hk
            cases k with
            | zero =>
                have hg : st'.offsets.get? base = st1.offsets.get? base := by
                  apply hpres
                  omega
                rw [Nat.add_zero, hg, hst1]
                simp only
                rw [List.get?_set_eq_of_lt _ (by simp at hlen; omega)]
                simp
            | succ m =>
                have hm : m < rest.length := by simp at hk; omega
                have := hget m hm
                rw [show base + (m + 1) = base + 1 + m by omega, this, hsink1]
                simp only [Option.some.injEq, List.take_succ_cons,
                  List.flatten_cons, List.length_append, List.nil_append,
                  List.length_nil]
          · intro j hj
            simp only [List.length_cons] at hj
            have hg : st'.offsets.get? j = st1.offsets.get? j := by
              apply hpres
              omega
            rw [hg, hst1]
            simp only
            rw [List.get?_set_ne _ _ (by omega)]
          · exact ⟨c2, by rw [hc2, hst1]⟩
          · intro k hk hno
            cases k with
            | zero => simp
            | succ m =>
                have hm : m < rest.length := by simp at hk; omega
                simp only [List.getD_cons_succ] at hno ⊢
                exact hempty m hm hno

/-- Characterization of a successful full run started from a fresh state,
under the external interface contract that the bytecode enumeration has
exactly one entry per handler slot and that the bijection maps the
enumeration order onto consecutive handler slots: the Sink is the
concatenation of one encoding chunk per offset-table slot, followed by
the padding and the raw offset table; every slot is stored exactly once,
in increasing slot order, with the value recording the byte position at
which the chunk of that slot starts; and pairs without a handler have an
empty chunk. -/
lemma Run_spec {env : Env} {st : SState}
    (hB : env.bytecodes.length = env.kNumberOfHandlers)
    (hAlign : ∀ k, k < env.bytecodes.length →
      env.BytecodeToIndex (env.bytecodes.getD k (0, 0)) =
        env.kFirstHandlerIndex + k)
    (h : SerializeBuiltinsAndHandlers env (FreshState env) = some st) :
    ∃ cb ch : List (List Nat),
      cb.length = env.kNumberOfBuiltins ∧
      ch.length = env.bytecodes.length ∧
      st.offsets.length = env.kNumberOfCodeObjects ∧
      st.sink = (cb ++ ch).flatten ++ List.replicate env.padLen kNop ++
        OffsetTableBytes st.offsets ∧
      st.writeLog = (List.range env.kNumberOfCodeObjects).map
        (fun s => (s, (((cb ++ ch).take s).flatten).length)) ∧
      (∀ s, s < env.kNumberOfCodeObjects →
        st.offsets.get? s = some ((((cb ++ ch).take s).flatten).length)) ∧
      (∀ k, k < env.bytecodes.length →
        env.BytecodeHasHandler (env.bytecodes.getD k (0, 0)) = false →
        (cb ++ ch).getD (env.kFirstHandlerIndex + k) [] = []) := by
  simp only [SerializeBuiltinsAndHandlers] at h
  split at h
  case isFalse => simp at h
  case isTrue h0 =>
  rcases hrb : RunBuiltins env 0 env.kNumberOfBuiltins (FreshState env) with
    _ | st1
  · rw [hrb] at h; simp at h
  · rw [hrb] at h
    dsimp only at h
    split at h
    case isFalse => simp at h
    case isTrue hc1 =>
    rcases hrh : RunHandlers env env.bytecodes st1 with _ | st2
    · rw [hrh] at h; simp at h
    · rw [hrh] at h
      dsimp only at h
      split at h
      case isFalse => simp at h
      case isTrue hc2 =>
      split at h
      case isFalse => simp at h
      case isTrue hcode =>
      have hfl : (FreshState env).offsets.length = env.kNumberOfCodeObjects := by
        simp [FreshState]
      have hlenB : 0 + env.kNumberOfBuiltins ≤ (FreshState env).offsets.length := by
        rw [hfl]; omega
      rcases RunBuiltins_spec hrb hlenB with
        ⟨cb, hcbl, hsink1, hlog1, holen1, hget1, hpres1, _⟩
      have hlenH : env.kFirstHandlerIndex + env.bytecodes.length ≤
          st1.offsets.length := by
        rw [holen1, hfl, hB]
        omega
      rcases RunHandlers_spec hrh hAlign hlenH with
        ⟨ch, hchl, hsink2, hlog2, holen2, hget2, hpres2, _, hempty2⟩
      cases h
      have hfs : (FreshState env).sink = [] := rfl
      have hfw : (FreshState env).writeLog = [] := rfl
      have hs1 : st1.sink = cb.flatten := by rw [hsink1, hfs]; simp
      have hs1len : st1.sink.length = cb.flatten.length := by rw [hs1]
      have hs2 : st2.sink = (cb ++ ch).flatten := by
        rw [hsink2, hs1, List.flatten_append]
      have hoff : st2.offsets.length = env.kNumberOfCodeObjects := by
        rw [holen2, holen1, hfl]
      refine ⟨cb, ch, hcbl, hchl, ?_, ?_, ?_, ?_, ?_⟩
      · simpa [Pad] using hoff
      · simp only [Pad]
        rw [hs2, List.append_assoc]
      · simp only [Pad]
        rw [hlog2, hlog1, hfw, hfs]
        simp only [List.nil_append, List.length_nil, Nat.zero_add,
          List.append_assoc]
        have htot : env.kNumberOfCodeObjects =
            env.kNumberOfBuiltins + env.bytecodes.length := by
          rw [hB]; omega
        rw [htot, List.range_add, List.map_append, List.map_map]
        congr 1
        · apply List.map_congr_left
          intro a ha
          have halt : a < env.kNumberOfBuiltins := List.mem_range.mp ha
          rw [List.take_append_of_le_length (by omega)]
        · apply List.map_congr_left
          intro a _
          simp only [Function.comp_apply]
          rw [← hcbl, List.take_append, List.flatten_append,
            List.length_append, hs1len, hcbl]
          exact Prod.ext (by omega) (by omega)
      · intro s hs
        simp only [Pad]
        by_cases hsN : s < env.kNumberOfBuiltins
        · have hp : st2.offsets.get? s = st1.offsets.get? s := by
            apply hpres2
            omega
          rw [hp]
          have := hget1 s hsN
          rw [Nat.zero_add] at this
          rw [this, hfs]
          rw [List.take_append_of_le_length (by omega)]
          simp
        · have hk : s - env.kNumberOfBuiltins < env.bytecodes.length := by
            rw [hB]; omega
          have := hget2 (s - env.kNumberOfBuiltins) hk
          rw [show env.kFirstHandlerIndex + (s - env.kNumberOfBuiltins) = s
            by omega] at this
          rw [this, hs1len]
          have hsplit : s = cb.length + (s - env.kNumberOfBuiltins) := by
            rw [hcbl]; omega
          rw [hsplit, List.take_append, List.flatten_append,
            List.length_append]
          rw [show cb.length + (s - env.kNumberOfBuiltins) -
              env.kNumberOfBuiltins = s - env.kNumberOfBuiltins by
            rw [hcbl]; omega]
      · intro k hk hno
        rw [show env.kFirstHandlerIndex + k = cb.length + k by rw [hcbl]; omega,
          List.getD_append_right _ _ _ _ (by omega)]
        rw [show cb.length + k - cb.length = k by omega]
        exact hempty2 k hk hno

/-- A successful SetBuiltinOffset is exactly the store into the slot,
together with its write-log record. -/
lemma SetBuiltinOffset_some {env : Env} {i off : Nat} {st st1 : SState}
    (h : SetBuiltinOffset env i off st = some st1) :
    st1 = { st with offsets := st.offsets.set i off
                    writeLog := st.writeLog ++ [(i, off)] } := by
  simp only [SetBuiltinOffset] at h
  split at h
  · exact ((Option.some.injEq _ _).mp h).symm
  · simp at h

/-- A successful SetHandlerOffset is exactly the store into the slot
computed by the bijection, together with its write-log record. -/
lemma SetHandlerOffset_some {env : Env} {bc : Nat × Nat} {off : Nat}
    {st st1 : SState} (h : SetHandlerOffset env bc off st = some st1) :
    st1 = { st with
      offsets := st.offsets.set (env.BytecodeToIndex bc) off
      writeLog := st.writeLog ++ [(env.BytecodeToIndex bc, off)] } := by
  simp only [SetHandlerOffset] at h
  split at h
  · exact ((Option.some.injEq _ _).mp h).symm
  · simp at h

/-- The builtin phase hands to the by-value encoder exactly the builtin
code objects of the processed id range, in order. -/
lemma RunBuiltins_sbv {env : Env} :
    ∀ {count start : Nat} {st st' : SState},
      RunBuiltins env start count st = some st' →
      ∃ L, st'.serializedByValue = st.serializedByValue ++ L ∧
        ∀ o ∈ L, ∃ k, k < count ∧ o = env.builtin (start + k) := by
  intro count
  induction count with
  | zero =>
      intro start st st' h
      simp only [RunBuiltins] at h
      cases h
      exact ⟨[], by simp, by simp⟩
  | succ c ih =>
      intro start st st' h
      simp only [RunBuiltins] at h
      rcases hsb : SetBuiltinOffset env start st.sink.length st with _ | st1
      · rw [hsb] at h; simp at h
      · rw [hsb] at h
        dsimp only at h
        rcases hser : SerializeBuiltin env (env.builtin start) st1 with _ | st2
        · rw [hser] at h; simp at h
        · rw [hser] at h
          dsimp only at h
          have hst1 := SetBuiltinOffset_some hsb
          rcases SerializeBuiltin_frame hser with ⟨_, _, _, _, hsv2⟩
          rcases ih h with ⟨L, hL, hmem⟩
          refine ⟨env.builtin start :: L, ?_, ?_⟩
          · rw [hL, hsv2, hst1]
            simp
          · intro o ho
            rcases List.mem_cons.mp ho with ho1 | ho1
            · exact ⟨0, by omega, by simpa using ho1⟩
            · rcases hmem o ho1 with ⟨k, hk, hko⟩
              exact ⟨k + 1, by omega,
                by rw [hko, show start + (k + 1) = start + 1 + k by omega]⟩

/-- The handler phase hands to the by-value encoder exactly the handler
code objects of the enumerated pairs that have a handler, in order. -/
lemma RunHandlers_sbv {env : Env} :
    ∀ {bcs : List (Nat × Nat)} {st st' : SState},
      RunHandlers env bcs st = some st' →
      ∃ L, st'.serializedByValue = st.serializedByValue ++ L ∧
        ∀ o ∈ L, ∃ bc, bc ∈ bcs ∧ env.BytecodeHasHandler bc = true ∧
          o = env.GetBytecodeHandler bc := by
  intro bcs
  induction bcs with
  | nil =>
      intro st st' h
      simp only [RunHandlers] at h
      cases h
      exact ⟨[], by simp, by simp⟩
  | cons bc rest ih =>
      intro st st' h
      simp only [RunHandlers] at h
      rcases hsh : SetHandlerOffset env bc st.sink.length st with _ | st1
      · rw [hsh] at h; simp at h
      · rw [hsh] at h
        dsimp only at h
        have hst1 := SetHandlerOffset_some hsh
        by_cases hhh : env.BytecodeHasHandler bc
        · rw [hhh] at h
          simp only [if_true] at h
          rcases hser : SerializeHandler env (env.GetBytecodeHandler bc) st1 with
            _ | st2
          · rw [hser] at h; simp at h
          · rw [hser] at h
            dsimp only at h
            rcases SerializeHandler_frame hser with ⟨_, _, _, _, hsv2⟩
            rcases ih h with ⟨L, hL, hmem⟩
            refine ⟨env.GetBytecodeHandler bc :: L, ?_, ?_⟩
            · rw [hL, hsv2, hst1]
              simp
            · intro o ho
              rcases List.mem_cons.mp ho with ho1 | ho1
              · exact ⟨bc, List.mem_cons_self bc rest, hhh, by simpa using ho1⟩
              · rcases hmem o ho1 with ⟨bc1, hb1, hb2, hb3⟩
                exact ⟨bc1, List.mem_cons_of_mem bc hb1, hb2, hb3⟩
        · simp only [hhh] at h
          simp only [Bool.false_eq_true, if_false] at h
          rcases ih h with ⟨L, hL, hmem⟩
          refine ⟨L, ?_, ?_⟩
          · rw [hL, hst1]
          · intro o ho
            rcases hmem o ho with ⟨bc1, hb1, hb2, hb3⟩
            exact ⟨bc1, List.mem_cons_of_mem bc hb1, hb2, hb3⟩

/-- A successful run implies the layout contract: the static asserts are
checked before the corresponding phases and fail the run otherwise. -/
lemma Run_layout {env : Env} {st0 st : SState}
    (h : SerializeBuiltinsAndHandlers env st0 = some st) : LayoutContract env := by
  simp only [SerializeBuiltinsAndHandlers] at h
  split at h
  case isFalse => simp at h
  case isTrue h0 =>
  rcases hrb : RunBuiltins env 0 env.kNumberOfBuiltins st0 with _ | st1
  · rw [hrb] at h; simp at h
  · rw [hrb] at h
    dsimp only at h
    split at h
    case isFalse => simp at h
    case isTrue h1 =>
    rcases hrh : RunHandlers env env.bytecodes st1 with _ | st2
    · rw [hrh] at h; simp at h
    · rw [hrh] at h
      dsimp only at h
      split at h
      case isFalse => simp at h
      case isTrue h2 => exact ⟨h0, h1, h2⟩

/-- A successful run implies that the debug checks on the three
lazy-deserialize handler slots passed, and that the by-value log grew
exactly by objects drawn from the enumerated builtins and handlers. -/
lemma Run_lazy_and_sbv {env : Env} {st0 st : SState}
    (h : SerializeBuiltinsAndHandlers env st0 = some st) :
    (env.IsCode env.deserializeLazyHandler = true ∧
      env.IsCode env.deserializeLazyHandlerWide = true ∧
      env.IsCode env.deserializeLazyHandlerExtraWide = true) ∧
    ∃ L, st.serializedByValue = st0.serializedByValue ++ L ∧
      ∀ o ∈ L, (∃ i, i < env.kNumberOfBuiltins ∧ o = env.builtin i) ∨
        (∃ bc, bc ∈ env.bytecodes ∧ env.BytecodeHasHandler bc = true ∧
          o = env.GetBytecodeHandler bc) := by
  simp only [SerializeBuiltinsAndHandlers] at h
  split at h
  case isFalse => simp at h
  case isTrue h0 =>
  rcases hrb : RunBuiltins env 0 env.kNumberOfBuiltins st0 with _ | st1
  · rw [hrb] at h; simp at h
  · rw [hrb] at h
    dsimp only at h
    split at h
    case isFalse => simp at h
    case isTrue h1 =>
    rcases hrh : RunHandlers env env.bytecodes st1 with _ | st2
    · rw [hrh] at h; simp at h
    · rw [hrh] at h
      dsimp only at h
      split at h
      case isFalse => simp at h
      case isTrue h2 =>
      split at h
      case isFalse => simp at h
      case isTrue hcode =>
      cases h
      rcases RunBuiltins_sbv hrb with ⟨LB, hLB, hmemB⟩
      rcases RunHandlers_sbv hrh with ⟨LH, hLH, hmemH⟩
      refine ⟨?_, LB ++ LH, ?_, ?_⟩
      · simp only [Bool.and_eq_true] at hcode
        exact ⟨hcode.1.1, hcode.1.2, hcode.2⟩
      · simp only [Pad]
        rw [hLH, hLB, List.append_assoc]
      · intro o ho
        rcases List.mem_append.mp ho with ho1 | ho1
        · rcases hmemB o ho1 with ⟨k, hk, hko⟩
          exact Or.inl ⟨0 + k, by omega, by simpa using hko⟩
        · rcases hmemH o ho1 with ⟨bc, hb1, hb2, hb3⟩
          exact Or.inr ⟨bc, hb1, hb2, hb3⟩

/-- The raw offset table blob is fixed width: four bytes per slot. -/
lemma OffsetTableBytes_length (l : List Nat) :
    (OffsetTableBytes l).length = 4 * l.length := by
  induction l with
  | nil => rfl
  | cons a t ih =>
      simp only [OffsetTableBytes, List.map_cons, List.flatten_cons,
        List.length_append, List.length_cons] at ih ⊢
      rw [ih]
      simp only [ToLE32, List.length_cons, List.length_nil]
      omega

/-- C1: in a successful run from a fresh state (under the external
contract that the bytecode enumeration has one entry per handler slot,
mapped by the bijection onto consecutive handler slots), the Sink starts
with one encoding chunk per offset-table slot in slot order; the write
log shows that every builtin slot and every handler slot is stored
exactly once, in increasing slot order, with value equal to the Sink
position at the instant of the store, which is before any byte of that
slot's object is appended; and an enumerated pair without a handler has
an empty chunk, so its slot equals the offset recorded in the next slot
whenever a next slot exists. -/
theorem C1_offset_slot_discipline (env : Env) (st : SState)
    (hB : env.bytecodes.length = env.kNumberOfHandlers)
    (hAlign : ∀ k, k < env.bytecodes.length →
      env.BytecodeToIndex (env.bytecodes.getD k (0, 0)) =
        env.kFirstHandlerIndex + k)
    (h : SerializeBuiltinsAndHandlers env (FreshState env) = some st) :
    ∃ chunks : List (List Nat),
      chunks.length = env.kNumberOfCodeObjects ∧
      (∃ rest, st.sink = chunks.flatten ++ rest) ∧
      st.writeLog = (List.range env.kNumberOfCodeObjects).map
        (fun s => (s, ((chunks.take s).flatten).length)) ∧
      (∀ s, s < env.kNumberOfCodeObjects →
        st.offsets.get? s = some (((chunks.take s).flatten).length)) ∧
      (∀ k, k < env.bytecodes.length →
        env.BytecodeHasHandler (env.bytecodes.getD k (0, 0)) = false →
        chunks.getD (env.kFirstHandlerIndex + k) [] = [] ∧
        (env.kFirstHandlerIndex + k + 1 < env.kNumberOfCodeObjects →
          st.offsets.get? (env.kFirstHandlerIndex + k) =
            st.offsets.get? (env.kFirstHandlerIndex + k + 1))) := by
  rcases Run_layout h with ⟨h0, h1, h2⟩
  rcases Run_spec hB hAlign h with
    ⟨cb, ch, hcbl, hchl, holen, hsink, hlog, hget, hempty⟩
  have htot : (cb ++ ch).length = env.kNumberOfCodeObjects := by
    simp only [List.length_append]
    rw [hcbl, hchl, hB]
    omega
  refine ⟨cb ++ ch, htot,
    ⟨List.replicate env.padLen kNop ++ OffsetTableBytes st.offsets,
      by rw [hsink, List.append_assoc]⟩, hlog, hget, ?_⟩
  intro k hk hno
  refine ⟨hempty k hk hno, ?_⟩
  intro hnext
  have hidx : env.kFirstHandlerIndex + k < (cb ++ ch).length := by
    rw [htot]; omega
  rw [hget _ (by omega), hget _ (by omega)]
  rw [take_flatten_succ _ _ hidx, hempty k hk hno]
  simp

/-- C2: SerializeObject on a referenced object carrying a root index
emits, when that root is marked serialized, exactly the compact root
reference token (the tag byte followed by the root index), touching
neither the cache nor any other state, and fails fatally when the root
is not yet marked serialized. -/
theorem C2_root_reference_path (env : Env) (o how wtp skip ri : Nat)
    (st : SState) (h : env.rootIndexOf o = some ri) :
    (env.rootHasBeenSerialized ri = true →
      SerializeObject env o how wtp skip st =
        some { st with
          sink := st.sink ++ (kRootArray + how + wtp) :: PutIntBytes ri }) ∧
    (env.rootHasBeenSerialized ri = false →
      SerializeObject env o how wtp skip st = none) := by
  constructor
  · intro hs
    simp [SerializeObject, h, hs, PutRoot]
  · intro hs
    simp [SerializeObject, h, hs]

/-- C3: SerializeObject on a referenced object that has no root index
but is a builtin emits exactly the compact builtin reference token,
regardless of the body of the referenced builtin; consequently two
builtins whose bodies reference each other are each encoded as a single
builtin reference token, with no descent and no recursion. -/
theorem C3_builtin_reference_path (env : Env)
    (a b ia ib how wtp skip ska skb : Nat) (st : SState)
    (hra : env.rootIndexOf a = none) (hba : env.builtinIndexOf a = some ia)
    (hrb : env.rootIndexOf b = none) (hbb : env.builtinIndexOf b = some ib)
    (hbodya : env.body a = [Item.ref b skb])
    (hbodyb : env.body b = [Item.ref a ska]) :
    SerializeObject env b how wtp skip st =
      some { st with
        sink := st.sink ++ (kBuiltin + how + wtp) :: PutIntBytes ib } ∧
    ObjectSerialize env a st = some { st with
      sink := st.sink ++ (kBuiltin + kPlain + kStartOfObject) :: PutIntBytes ib
      serializedByValue := st.serializedByValue ++ [a] } ∧
    ObjectSerialize env b st = some { st with
      sink := st.sink ++ (kBuiltin + kPlain + kStartOfObject) :: PutIntBytes ia
      serializedByValue := st.serializedByValue ++ [b] } := by
  refine ⟨?_, ?_, ?_⟩
  · simp [SerializeObject, hrb, hbb, PutBuiltinReference]
  · simp [ObjectSerialize, hbodya, SerializeItems, SerializeObject, hrb, hbb,
      PutBuiltinReference]
  · simp [ObjectSerialize, hbodyb, SerializeItems, SerializeObject, hra, hba,
      PutBuiltinReference]

/-- C4: SerializeObject on a referenced object with neither a root index
nor a builtin identity first flushes the pending skip count, then obtains
or creates the object's index in the shared partial snapshot cache and
emits the cache reference token; the cache is unchanged when the object
is already cached and grows by exactly that object otherwise. -/
theorem C4_cache_fallback_path (env : Env) (o how wtp skip : Nat)
    (st : SState) (hr : env.rootIndexOf o = none)
    (hb : env.builtinIndexOf o = none) :
    SerializeObject env o how wtp skip st =
      some { st with
        sink := FlushSkip skip st.sink ++
          (kPartialSnapshotCache + how + wtp) ::
            PutIntBytes (PartialSnapshotCacheIndex o st.cache).1
        cache := (PartialSnapshotCacheIndex o st.cache).2 } ∧
    (o ∈ st.cache → (PartialSnapshotCacheIndex o st.cache).2 = st.cache) ∧
    (o ∉ st.cache →
      (PartialSnapshotCacheIndex o st.cache).2 = st.cache ++ [o]) := by
  exact ⟨by simp [SerializeObject, hr, hb], PartialSnapshotCacheIndex_mem,
    PartialSnapshotCacheIndex_not_mem⟩

/-- C5: after a successful run from a fresh state the final byte stream
is the builtin encodings in id order, then the handler encodings in
enumeration order, then a padding run of the no-op byte whose configured
length is at least the maximal decode-time over-read, then the offset
table appended once as a raw fixed-width blob of four bytes per slot. -/
theorem C5_stream_layout (env : Env) (st : SState)
    (hB : env.bytecodes.length = env.kNumberOfHandlers)
    (hAlign : ∀ k, k < env.bytecodes.length →
      env.BytecodeToIndex (env.bytecodes.getD k (0, 0)) =
        env.kFirstHandlerIndex + k)
    (hpad : env.maxOverRead ≤ env.padLen)
    (h : SerializeBuiltinsAndHandlers env (FreshState env) = some st) :
    ∃ cb ch : List (List Nat),
      cb.length = env.kNumberOfBuiltins ∧
      ch.length = env.bytecodes.length ∧
      st.sink = cb.flatten ++ ch.flatten ++ List.replicate env.padLen kNop ++
        OffsetTableBytes st.offsets ∧
      env.maxOverRead ≤ env.padLen ∧
      (OffsetTableBytes st.offsets).length = 4 * env.kNumberOfCodeObjects := by
  rcases Run_spec hB hAlign h with
    ⟨cb, ch, hcbl, hchl, holen, hsink, _, _, _⟩
  refine ⟨cb, ch, hcbl, hchl, ?_, hpad, ?_⟩
  · rw [hsink, List.flatten_append, List.append_assoc]
  · rw [OffsetTableBytes_length, holen]

/-- C6: the layout contract (builtin indices start at zero, handler
indices start right after the builtins, and the handler region ends at
the total slot count) is checked by the run: any successful run implies
it, and when it fails the run returns no output. -/
theorem C6_layout_contract (env : Env) (st0 : SState) :
    (∀ st, SerializeBuiltinsAndHandlers env st0 = some st →
      LayoutContract env) ∧
    (¬LayoutContract env → SerializeBuiltinsAndHandlers env st0 = none) := by
  constructor
  · intro st h
    exact Run_layout h
  · intro hnc
    simp only [SerializeBuiltinsAndHandlers]
    by_cases h0 : env.kFirstBuiltinIndex = 0
    · rw [if_pos h0]
      rcases hrb : RunBuiltins env 0 env.kNumberOfBuiltins st0 with _ | st1
      · rfl
      · dsimp only
        by_cases h1 : env.kNumberOfBuiltins = env.kFirstHandlerIndex
        · rw [if_pos h1]
          rcases hrh : RunHandlers env env.bytecodes st1 with _ | st2
          · rfl
          · dsimp only
            have h2 : env.kFirstHandlerIndex + env.kNumberOfHandlers ≠
                env.kNumberOfCodeObjects := fun h2 => hnc ⟨h0, h1, h2⟩
            rw [if_neg h2]
        · rw [if_neg h1]
    · rw [if_neg h0]

/-- C9: in a successful run from a fresh state the recorded offsets are
nondecreasing in slot order, and a builtin whose encoding chunk is
non-empty has an offset strictly below the offset of the next slot. -/
theorem C9_offsets_monotone (env : Env) (st : SState)
    (hB : env.bytecodes.length = env.kNumberOfHandlers)
    (hAlign : ∀ k, k < env.bytecodes.length →
      env.BytecodeToIndex (env.bytecodes.getD k (0, 0)) =
        env.kFirstHandlerIndex + k)
    (h : SerializeBuiltinsAndHandlers env (FreshState env) = some st) :
    (∀ s, s + 1 < env.kNumberOfCodeObjects →
      st.offsets.getD s 0 ≤ st.offsets.getD (s + 1) 0) ∧
    ∃ chunks : List (List Nat),
      chunks.length = env.kNumberOfCodeObjects ∧
      (∃ rest, st.sink = chunks.flatten ++ rest) ∧
      (∀ s, s < env.kNumberOfCodeObjects →
        st.offsets.get? s = some (((chunks.take s).flatten).length)) ∧
      (∀ i, i < env.kNumberOfBuiltins → i + 1 < env.kNumberOfCodeObjects →
        chunks.getD i [] ≠ [] →
        st.offsets.getD i 0 < st.offsets.getD (i + 1) 0) := by
  rcases Run_layout h with ⟨h0, h1, h2⟩
  rcases Run_spec hB hAlign h with
    ⟨cb, ch, hcbl, hchl, holen, hsink, hlog, hget, hempty⟩
  have htot : (cb ++ ch).length = env.kNumberOfCodeObjects := by
    simp only [List.length_append]
    rw [hcbl, hchl, hB]
    omega
  have hstep : ∀ s, s + 1 < env.kNumberOfCodeObjects →
      st.offsets.getD s 0 + ((cb ++ ch).getD s []).length =
        st.offsets.getD (s + 1) 0 := by
    intro s hs
    rw [getD_of_get? 0 (hget s (by omega)), getD_of_get? 0 (hget (s + 1) hs)]
    rw [take_flatten_succ _ _ (by omega)]
  constructor
  · intro s hs
    have := hstep s hs
    omega
  · refine ⟨cb ++ ch, htot,
      ⟨List.replicate env.padLen kNop ++ OffsetTableBytes st.offsets,
        by rw [hsink, List.append_assoc]⟩, hget, ?_⟩
    intro i hiN hi hne
    have := hstep i hi
    have hpos : 0 < ((cb ++ ch).getD i []).length := List.length_pos.mpr hne
    omega

/-- C10: the root reference path and the builtin reference path of
SerializeObject leave the shared partial snapshot cache unchanged; only
the cache fallback path can touch it. -/
theorem C10_reference_paths_cache_frame (env : Env) (o how wtp skip : Nat)
    (st st' : SState)
    (hcase : (∃ ri, env.rootIndexOf o = some ri) ∨
      (env.rootIndexOf o = none ∧ ∃ bi, env.builtinIndexOf o = some bi))
    (h : SerializeObject env o how wtp skip st = some st') :
    st'.cache = st.cache := by
  rcases hcase with ⟨ri, hri⟩ | ⟨hr, bi, hbi⟩
  · simp only [SerializeObject, hri] at h
    split at h
    · cases h; rfl
    · simp at h
  · simp only [SerializeObject, hr, hbi] at h
    cases h
    rfl

/-- C7 counterexample: the run checks only that the three designated
lazy-deserialize handler slots hold code objects; it does not assert
that they have already been serialized. In this environment the first
lazy handler has root index zero, that root is not marked serialized,
and the run nevertheless completes successfully, refuting the claim
that the pass asserts the three handlers have already been serialized. -/
theorem C7_counterexample :
    (SerializeBuiltinsAndHandlers envC7 (FreshState envC7)).isSome = true ∧
    envC7.rootIndexOf envC7.deserializeLazyHandler = some 0 ∧
    envC7.rootHasBeenSerialized 0 = false :=
  ⟨rfl, rfl, rfl⟩

/-- C7 amended: the three designated lazy-deserialize handler routines
are not serialized by this pass, since every object handed to the
by-value encoder is an enumerated builtin or an enumerated handler; the
pass only checks, fatally in debug, that each of the three designated
heap slots holds a code object. -/
theorem C7_lazy_handlers_excluded (env : Env) (st0 st : SState)
    (h : SerializeBuiltinsAndHandlers env st0 = some st) :
    (env.IsCode env.deserializeLazyHandler = true ∧
      env.IsCode env.deserializeLazyHandlerWide = true ∧
      env.IsCode env.deserializeLazyHandlerExtraWide = true) ∧
    ∃ L, st.serializedByValue = st0.serializedByValue ++ L ∧
      ∀ o ∈ L, (∃ i, i < env.kNumberOfBuiltins ∧ o = env.builtin i) ∨
        (∃ bc, bc ∈ env.bytecodes ∧ env.BytecodeHasHandler bc = true ∧
          o = env.GetBytecodeHandler bc) :=
  Run_lazy_and_sbv h

/-- C8: the run is deterministic; two runs over the same heap state,
each started from a fresh state (empty Sink, zeroed offset table, empty
cache and logs), produce identical results, in particular byte-identical
Sinks. -/
theorem C8_deterministic (env : Env) (st1 st2 : SState)
    (h1 : IsFreshState env st1) (h2 : IsFreshState env st2) :
    SerializeBuiltinsAndHandlers env st1 = SerializeBuiltinsAndHandlers env st2 := by
  obtain ⟨a1, b1, c1, d1, e1⟩ := h1
  obtain ⟨a2, b2, c2, d2, e2⟩ := h2
  have he : st1 = st2 := by
    cases st1
    cases st2
    simp_all
  rw [he]

/-- Witness for C1 at the example environment. -/
theorem C1_witness :
    envEx.bytecodes.length = envEx.kNumberOfHandlers ∧
    (∀ k, k < envEx.bytecodes.length →
      envEx.BytecodeToIndex (envEx.bytecodes.getD k (0, 0)) =
        envEx.kFirstHandlerIndex + k) ∧
    SerializeBuiltinsAndHandlers envEx (FreshState envEx) = some stEx ∧
    (∃ chunks : List (List Nat),
      chunks.length = envEx.kNumberOfCodeObjects ∧
      (∃ rest, stEx.sink = chunks.flatten ++ rest) ∧
      stEx.writeLog = (List.range envEx.kNumberOfCodeObjects).map
        (fun s => (s, ((chunks.take s).flatten).length)) ∧
      (∀ s, s < envEx.kNumberOfCodeObjects →
        stEx.offsets.get? s = some (((chunks.take s).flatten).length)) ∧
      (∀ k, k < envEx.bytecodes.length →
        envEx.BytecodeHasHandler (envEx.bytecodes.getD k (0, 0)) = false →
        chunks.getD (envEx.kFirstHandlerIndex + k) [] = [] ∧
        (envEx.kFirstHandlerIndex + k + 1 < envEx.kNumberOfCodeObjects →
          stEx.offsets.get? (envEx.kFirstHandlerIndex + k) =
            stEx.offsets.get? (envEx.kFirstHandlerIndex + k + 1)))) :=
  ⟨rfl, by decide, rfl,
    C1_offset_slot_discipline envEx stEx rfl (by decide) rfl⟩

/-- Witness for C2 at the example root object. -/
theorem C2_witness :
    envRef.rootIndexOf 40 = some 2 ∧
    ((envRef.rootHasBeenSerialized 2 = true →
      SerializeObject envRef 40 0 0 0 (FreshState envRef) =
        some { FreshState envRef with
          sink := (FreshState envRef).sink ++
            (kRootArray + 0 + 0) :: PutIntBytes 2 }) ∧
     (envRef.rootHasBeenSerialized 2 = false →
      SerializeObject envRef 40 0 0 0 (FreshState envRef) = none)) :=
  ⟨rfl, C2_root_reference_path envRef 40 0 0 0 2 (FreshState envRef) rfl⟩

/-- Witness for C3 at the mutually referencing example builtins. -/
theorem C3_witness :
    envRef.rootIndexOf 10 = none ∧ envRef.builtinIndexOf 10 = some 0 ∧
    envRef.rootIndexOf 21 = none ∧ envRef.builtinIndexOf 21 = some 7 ∧
    envRef.body 10 = [Item.ref 21 0] ∧ envRef.body 21 = [Item.ref 10 5] ∧
    (SerializeObject envRef 21 0 0 0 (FreshState envRef) =
      some { FreshState envRef with
        sink := (FreshState envRef).sink ++
          (kBuiltin + 0 + 0) :: PutIntBytes 7 } ∧
    ObjectSerialize envRef 10 (FreshState envRef) =
      some { FreshState envRef with
        sink := (FreshState envRef).sink ++
          (kBuiltin + kPlain + kStartOfObject) :: PutIntBytes 7
        serializedByValue := (FreshState envRef).serializedByValue ++ [10] } ∧
    ObjectSerialize envRef 21 (FreshState envRef) =
      some { FreshState envRef with
        sink := (FreshState envRef).sink ++
          (kBuiltin + kPlain + kStartOfObject) :: PutIntBytes 0
        serializedByValue := (FreshState envRef).serializedByValue ++ [21] }) :=
  ⟨rfl, rfl, rfl, rfl, rfl, rfl,
    C3_builtin_reference_path envRef 10 21 0 7 0 0 0 5 0 (FreshState envRef)
      rfl rfl rfl rfl rfl rfl⟩

/-- Witness for C4 at the example auxiliary object. -/
theorem C4_witness :
    envRef.rootIndexOf 50 = none ∧ envRef.builtinIndexOf 50 = none ∧
    (SerializeObject envRef 50 0 0 7 (FreshState envRef) =
      some { FreshState envRef with
        sink := FlushSkip 7 (FreshState envRef).sink ++
          (kPartialSnapshotCache + 0 + 0) ::
            PutIntBytes (PartialSnapshotCacheIndex 50 (FreshState envRef).cache).1
        cache := (PartialSnapshotCacheIndex 50 (FreshState envRef).cache).2 } ∧
    (50 ∈ (FreshState envRef).cache →
      (PartialSnapshotCacheIndex 50 (FreshState envRef).cache).2 =
        (FreshState envRef).cache) ∧
    (50 ∉ (FreshState envRef).cache →
      (PartialSnapshotCacheIndex 50 (FreshState envRef).cache).2 =
        (FreshState envRef).cache ++ [50])) :=
  ⟨rfl, rfl,
    C4_cache_fallback_path envRef 50 0 0 7 (FreshState envRef) rfl rfl⟩

/-- Witness for C5 at the example environment. -/
theorem C5_witness :
    envEx.maxOverRead ≤ envEx.padLen ∧
    (∃ cb ch : List (List Nat),
      cb.length = envEx.kNumberOfBuiltins ∧
      ch.length = envEx.bytecodes.length ∧
      stEx.sink = cb.flatten ++ ch.flatten ++
        List.replicate envEx.padLen kNop ++ OffsetTableBytes stEx.offsets ∧
      envEx.maxOverRead ≤ envEx.padLen ∧
      (OffsetTableBytes stEx.offsets).length = 4 * envEx.kNumberOfCodeObjects) :=
  ⟨by decide,
    C5_stream_layout envEx stEx rfl (by decide) (by decide) rfl⟩

/-- Witness for C6 at the example environment. -/
theorem C6_witness : LayoutContract envEx :=
  (C6_layout_contract envEx (FreshState envEx)).1 stEx rfl

/-- Witness for the amended C7 at the example environment. -/
theorem C7_witness :
    (envEx.IsCode envEx.deserializeLazyHandler = true ∧
      envEx.IsCode envEx.deserializeLazyHandlerWide = true ∧
      envEx.IsCode envEx.deserializeLazyHandlerExtraWide = true) ∧
    ∃ L, stEx.serializedByValue = (FreshState envEx).serializedByValue ++ L ∧
      ∀ o ∈ L, (∃ i, i < envEx.kNumberOfBuiltins ∧ o = envEx.builtin i) ∨
        (∃ bc, bc ∈ envEx.bytecodes ∧ envEx.BytecodeHasHandler bc = true ∧
          o = envEx.GetBytecodeHandler bc) :=
  C7_lazy_handlers_excluded envEx (FreshState envEx) stEx rfl

/-- Witness for C8 at the example environment. -/
theorem C8_witness :
    IsFreshState envEx (FreshState envEx) ∧
    SerializeBuiltinsAndHandlers envEx (FreshState envEx) =
      SerializeBuiltinsAndHandlers envEx (FreshState envEx) :=
  ⟨⟨rfl, rfl, rfl, rfl, rfl⟩,
    C8_deterministic envEx (FreshState envEx) (FreshState envEx)
      ⟨rfl, rfl, rfl, rfl, rfl⟩ ⟨rfl, rfl, rfl, rfl, rfl⟩⟩

/-- Witness for C9 at the example environment. -/
theorem C9_witness :
    (∀ s, s + 1 < envEx.kNumberOfCodeObjects →
      stEx.offsets.getD s 0 ≤ stEx.offsets.getD (s + 1) 0) ∧
    ∃ chunks : List (List Nat),
      chunks.length = envEx.kNumberOfCodeObjects ∧
      (∃ rest, stEx.sink = chunks.flatten ++ rest) ∧
      (∀ s, s < envEx.kNumberOfCodeObjects →
        stEx.offsets.get? s = some (((chunks.take s).flatten).length)) ∧
      (∀ i, i < envEx.kNumberOfBuiltins →
        i + 1 < envEx.kNumberOfCodeObjects →
        chunks.getD i [] ≠ [] →
        stEx.offsets.getD i 0 < stEx.offsets.getD (i + 1) 0) :=
  C9_offsets_monotone envEx stEx rfl (by decide) rfl

/-- Witness for C10 at the example root reference. -/
theorem C10_witness :
    SerializeObject envRef 40 0 0 0 (FreshState envRef) =
      some { sink := [5, 2, 0, 0, 0]
             offsets := List.replicate 8 0
             writeLog := []
             cache := []
             serializedByValue := [] } ∧
    ({ sink := [5, 2, 0, 0, 0]
       offsets := List.replicate 8 0
       writeLog := []
       cache := []
       serializedByValue := [] } : SState).cache = (FreshState envRef).cache :=
  ⟨rfl,
    C10_reference_paths_cache_frame envRef 40 0 0 0 (FreshState envRef) _
      (Or.inl ⟨2, rfl⟩) rfl⟩

end BuiltinSer
